import Mathlib

/-!
# Verification of the consulator flattening front-end

A shallow embedding of `consulator.go` (package main).  Go strings are
modelled as lists of characters, the Go standard-library string helpers the
program calls (`strings.TrimPrefix`, `strings.TrimSuffix`, `strings.Split`,
`strings.ToLower`, `filepath.Ext`) are re-implemented over that model with
the semantics of their Go sources, and the program's own functions
(`parseConfig`'s key derivation and format dispatch, `main`'s prefix
clean-up and argument dispatch, `exportData`) are translated statement by
statement.  `os.PathSeparator` is fixed to `/`, the separator of the target
platform.  All paths in the claims are ASCII, where the byte-wise Go code
and the character-wise model agree.
-/

set_option autoImplicit false

/-- Go strings, modelled as lists of characters. -/
abbrev GoStr := List Char

/-- `strings.HasPrefix pre s` — the first argument here is the candidate
leading segment. -/
def hasPre : GoStr → GoStr → Bool
  | [], _ => true
  | _ :: _, [] => false
  | a :: as, b :: bs => a == b && hasPre as bs

/-- `strings.TrimPrefix s pre`: drop `pre` from the front of `s` when it is
there, otherwise return `s` unchanged. -/
def trimPre (s pre : GoStr) : GoStr :=
  if hasPre pre s then s.drop pre.length else s

/-- `strings.HasSuffix suf s` — the first argument is the candidate trailing
segment. -/
def hasSuf (suf s : GoStr) : Bool :=
  hasPre suf.reverse s.reverse

/-- `strings.TrimSuffix s suf`. -/
def trimSuf (s suf : GoStr) : GoStr :=
  if hasSuf suf s then s.take (s.length - suf.length) else s

/-- `strings.Split s sep` for the one-character separator the program uses
(`string(os.PathSeparator)`).  Splitting any string yields at least one
piece, exactly as in Go. -/
def splitSep (sep : Char) : GoStr → List GoStr
  | [] => [[]]
  | c :: cs =>
    if c = sep then [] :: splitSep sep cs
    else
      match splitSep sep cs with
      | [] => [[c]]
      | g :: gs => (c :: g) :: gs

/-- The scanning loop of `filepath.Ext`, which walks the path from its last
character towards the front, stopping at a path separator.  The input here
is the reversed path; `acc` holds the characters already scanned, restored
to their original order. -/
def extGoAux (acc : GoStr) : GoStr → GoStr
  | [] => []
  | c :: cs =>
    if c = '/' then []
    else if c = '.' then c :: acc
    else extGoAux (c :: acc) cs

/-- `filepath.Ext p`: the suffix beginning at the final dot in the final
slash-separated element of `p`, or empty when there is no dot there. -/
def extGo (p : GoStr) : GoStr := extGoAux [] p.reverse

/-- `strings.ToLower`, restricted to the ASCII mapping (the Go original is
Unicode-aware; every string the program compares suffixes against is
ASCII). -/
def goLower (s : GoStr) : GoStr := s.map Char.toLower

/-- The `.json` format suffix recognized by `parseConfig`. -/
def dotJson : GoStr := ['.', 'j', 's', 'o', 'n']

/-- The `.yml` format suffix recognized by `parseConfig`. -/
def dotYml : GoStr := ['.', 'y', 'm', 'l']

/-- The `.yaml` format suffix recognized by `parseConfig`. -/
def dotYaml : GoStr := ['.', 'y', 'a', 'm', 'l']

/-- consulator.go lines 117-126: the key-segment computation of
`parseConfig` before the leading-empty collapse — strip the walk root
`absPath` from the front of `p`, strip `filepath.Ext p` from the back,
strip one leading separator, split on the separator. -/
def deriveRaw (absPath p : GoStr) : List GoStr :=
  splitSep '/' (trimPre (trimSuf (trimPre p absPath) (extGo p)) ['/'])

/-- consulator.go lines 117-130: the derived key segments, with the
`keyPrefix[0] == ""` collapse of lines 127-130 applied.  The `[]` arm of
the match is unreachable: `splitSep` never returns the empty list. -/
def deriveKeyPref (absPath p : GoStr) : List GoStr :=
  match deriveRaw absPath p with
  | [] => []
  | k :: ks => if k = [] then [] else k :: ks

/-- consulator.go lines 51-55: the prefix clean-up of `main` — one
`TrimPrefix` of `/`, one `TrimSuffix` of `/`, then a trailing `/` appended
when the result is non-empty. -/
def normPref (p : GoStr) : GoStr :=
  let t := trimSuf (trimPre p ['/']) ['/']
  if t = [] then t else t ++ ['/']

/-- Key derivation as claim C4 words it: the root is stripped, but the file
extension is stripped only when it case-insensitively matches one of the
declared format suffixes `.json`, `.yml`, `.yaml`; other extensions are
kept.  Compared below against `deriveKeyPref`, the derivation of the
source. -/
def deriveClaimC4 (absPath p : GoStr) : List GoStr :=
  let e := extGo p
  let body := trimPre p absPath
  let body2 :=
    if goLower e = dotJson ∨ goLower e = dotYml ∨ goLower e = dotYaml then
      trimSuf body e
    else body
  match splitSep '/' (trimPre body2 ['/']) with
  | [] => []
  | k :: ks => if k = [] then [] else k :: ks

/-- The file extension as the amended claim C4 words it: the suffix that
starts at the final dot of the final separator-delimited element of the
path, whatever that extension is.  Formulated independently of the
`filepath.Ext` scanning loop, via `takeWhile`/`dropWhile` on the reversed
path.  `notDotSlash` holds for a character that neither marks an extension
nor ends a path element. -/
def notDotSlash (c : Char) : Bool := !(c == '.' || c == '/')

/-- The final-dot extension, worded as in the amended claim C4: reading the
path from the end, the characters before the first dot or separator are the
extension body; they form an extension exactly when a dot follows them. -/
def specExt (p : GoStr) : GoStr :=
  if (p.reverse.dropWhile notDotSlash).head? = some '.' then
    '.' :: (p.reverse.takeWhile notDotSlash).reverse
  else []

/-- Key derivation as amended claim C4 words it: root stripped, then the
extension `specExt p` stripped unconditionally, then one leading separator
stripped, then split, then the leading-empty collapse. -/
def deriveAmendedC4 (absPath p : GoStr) : List GoStr :=
  match splitSep '/' (trimPre (trimSuf (trimPre p absPath) (specExt p)) ['/']) with
  | [] => []
  | k :: ks => if k = [] then [] else k :: ks

/-- Prefix normalization as claim C6 words it: all leading and all trailing
separator characters stripped, then a single trailing separator appended
when the remainder is non-empty. -/
def normPrefClaimC6 (p : GoStr) : GoStr :=
  let t := ((p.dropWhile (· == '/')).reverse.dropWhile (· == '/')).reverse
  if t = [] then t else t ++ ['/']

/-- Prefix normalization as amended claim C6 words it: at most one leading
separator removed, at most one trailing separator removed, then a trailing
separator appended when the remainder is non-empty. -/
def normPrefAmendedC6 (p : GoStr) : GoStr :=
  let p1 := if p.head? = some '/' then p.tail else p
  let p2 := if p1.getLast? = some '/' then p1.dropLast else p1
  if p2 = [] then [] else p2 ++ ['/']

/-! ## The accumulation map, `parseConfig` and `main`

`parseJson` and `yamlToJson` are declared outside the available source (the
spec treats the format parsers as external collaborators).  They enter the
model as oracles: a function from the derived key segments to `none` (the
parse or transcode failed) or `some es` (the flat entries the file
contributes to the accumulation map).  Likewise `os.Open`, `os.Stat` and
`os.Stdin.Stat` outcomes are inputs of the model. -/

/-- Flat entries contributed by one parse: `(key, value)` pairs. -/
abbrev AccEntries := List (GoStr × GoStr)

/-- The process-wide accumulation map `data`, modelled as an association
list in Go-map iteration order. -/
abbrev AccMap := List (GoStr × GoStr)

/-- `data[key] = val`: replace the value when the key is present, append
the pair otherwise (last writer wins). -/
def upsert (m : AccMap) (k v : GoStr) : AccMap :=
  if m.any (fun e => e.1 == k) then
    m.map (fun e => if e.1 == k then (k, v) else e)
  else m ++ [(k, v)]

/-- Write every contributed entry into the accumulation map in order. -/
def upsertAll (m : AccMap) (es : AccEntries) : AccMap :=
  es.foldl (fun acc e => upsert acc e.1 e.2) m

/-- The one bit of `os.FileInfo` that `parseConfig` reads:
`Mode().IsRegular()`. -/
structure GoFileInfo where
  isRegular : Bool
deriving DecidableEq

/-- How one `parseConfig` call ends: a nil-interface dereference panic, a
process abort through `Error.Fatalf`, or a normal return carrying the
returned error value, whether any warning was logged, and the accumulation
map afterwards. -/
inductive StepResult where
  | panicked
  | fatal
  | returned (retErr : Option Unit) (warned : Bool) (data : AccMap)
deriving DecidableEq

/-- consulator.go lines 117-162: the body of `parseConfig` after the stream
has been chosen — key derivation, then the extension switch.  `warn0` says
whether the `err != nil` check of line 114 already logged a warning.  The
`.properties` and `.ini` cases and the default case only emit debug logging
and fall through to `return nil`, so they collapse into the final branch. -/
def parseConfigSwitch (absPath : GoStr) (data : AccMap) (p : GoStr)
    (warn0 : Bool) (jsonRes yamlRes : List GoStr → Option AccEntries) :
    StepResult :=
  if hasSuf dotJson (goLower p) then
    match jsonRes (deriveKeyPref absPath p) with
    | none => .fatal
    | some es => .returned none warn0 (upsertAll data es)
  else if hasSuf dotYml (goLower p) || hasSuf dotYaml (goLower p) then
    match yamlRes (deriveKeyPref absPath p) with
    | none => .returned none true data
    | some es => .returned none warn0 (upsertAll data es)
  else
    .returned none warn0 data

/-- consulator.go lines 104-163: `parseConfig(path, f, err)` with the
globals `nArgs`, `absPath` and `data` made explicit.  `f.Mode()` is
evaluated before anything else looks at `nArgs`, so a nil `FileInfo`
panics unconditionally.  A regular file in walk mode is opened (`openErr`
is the `os.Open` outcome, warned about but not fatal); stdin mode keeps
the incoming `errIn`; any other call returns nil immediately. -/
def parseConfig (nArgs : Nat) (absPath : GoStr) (data : AccMap) (p : GoStr)
    (f : Option GoFileInfo) (errIn openErr : Bool)
    (jsonRes yamlRes : List GoStr → Option AccEntries) : StepResult :=
  match f with
  | none => .panicked
  | some fi =>
    if fi.isRegular && nArgs == 1 then
      parseConfigSwitch absPath data p openErr jsonRes yamlRes
    else if nArgs == 0 then
      parseConfigSwitch absPath data p errIn jsonRes yamlRes
    else
      .returned none false data

/-- One filesystem entry as `filepath.Walk` presents it to `parseConfig`,
together with the oracle outcomes for that entry. -/
structure WalkItem where
  path : GoStr
  info : Option GoFileInfo
  errIn : Bool
  openErr : Bool
  jsonRes : List GoStr → Option AccEntries
  yamlRes : List GoStr → Option AccEntries

/-- How the walk of lines 86-89 ends: a panic or fatal abort from inside
the callback, or completion with the error value `filepath.Walk` returns
and the accumulation map. -/
inductive WalkOut where
  | panicked
  | fatalExit
  | done (err : Option Unit) (data : AccMap)

/-- `filepath.Walk absPath parseConfig`: run the callback on each entry in
order; a non-nil callback return would abort the walk and become the walk's
return value. -/
def walkAll (absPath : GoStr) : AccMap → List WalkItem → WalkOut
  | data, [] => .done none data
  | data, it :: its =>
    match parseConfig 1 absPath data it.path it.info it.errIn it.openErr
        it.jsonRes it.yamlRes with
    | .panicked => .panicked
    | .fatal => .fatalExit
    | .returned (some e) _ d => .done (some e) d
    | .returned none _ d => walkAll absPath d its

/-- How a whole invocation ends: a panic, `os.Exit` with an explicit code
from a usage error, an abort through `Error.Fatal` (`log.Fatal`, exit code
1), or a normal end of `main` (exit code 0) carrying the accumulated
map. -/
inductive RunResult where
  | panicked
  | usageExit (code : Nat)
  | fatalExit
  | ok (data : AccMap)
deriving DecidableEq

/-- consulator.go lines 56-101: the argument dispatch of `main`.  With no
arguments, stdin is used: a `-format` other than `json`/`yaml` prints usage
and exits 1; otherwise `parseConfig` runs once on the synthetic path
`"." + format` with the unchecked `os.Stdin.Stat()` info, and a returned
error is only logged.  With one argument, a failed `os.Stat` is fatal,
then the walk runs and a walk error is fatal.  Any other argument count
prints usage and exits 255. -/
def mainRun (nArgs : Nat) (format absPath : GoStr)
    (stdinStat : Option GoFileInfo)
    (stdinJson stdinYaml : List GoStr → Option AccEntries)
    (statErr : Bool) (items : List WalkItem) : RunResult :=
  if nArgs == 0 then
    if format = ("json").toList ∨ format = ("yaml").toList then
      match parseConfig 0 [] [] ('.' :: format) stdinStat false false
          stdinJson stdinYaml with
      | .panicked => .panicked
      | .fatal => .fatalExit
      | .returned _ _ d => .ok d
    else .usageExit 1
  else if nArgs == 1 then
    if statErr then .fatalExit
    else
      match walkAll absPath [] items with
      | .panicked => .panicked
      | .fatalExit => .fatalExit
      | .done (some _) _ => .fatalExit
      | .done none d => .ok d
  else .usageExit 255

/-! ## The export formatter -/

/-- One entry of the dump output. -/
structure KvExportEntry where
  key : GoStr
  value : GoStr
deriving DecidableEq

/-- Modelled from the spec: `toExportEntry` is declared outside the
available source.  Per the spec it carries at minimum the key and a
store-native encoded value; no claim below depends on the encoding, which
is therefore modelled as the identity on the value bytes. -/
def toExportEntry (k v : GoStr) : KvExportEntry := ⟨k, v⟩

/-- consulator.go lines 165-171: `exportData` allocates a slice of
`len(data)` entries and fills it by ranging over the map, one
`toExportEntry` per pair, in iteration order; no sorting happens before
`json.MarshalIndent` serializes the slice. -/
def exportData (data : AccMap) : List KvExportEntry :=
  data.map (fun e => toExportEntry e.1 e.2)

/-- Lexicographic comparison of two modelled strings. -/
def strLe : GoStr → GoStr → Bool
  | [], _ => true
  | _ :: _, [] => false
  | a :: as, b :: bs => if a = b then strLe as bs else decide (a < b)

/-- Whether a dump is in non-decreasing key order. -/
def sortedByKey : List KvExportEntry → Bool
  | [] => true
  | [_] => true
  | a :: b :: rest => strLe a.key b.key && sortedByKey (b :: rest)

/-! ## Helper lemmas -/

/-- Go's `strings.Split` never returns an empty slice. -/
theorem splitSep_length_pos (sep : Char) (s : GoStr) :
    0 < (splitSep sep s).length := by
  induction s with
  | nil => simp [splitSep]
  | cons c cs ih =>
    simp only [splitSep]
    split
    · simp
    · split <;> simp

/-- A string with the one-character leading segment `a` starts with `a`. -/
theorem hasPre_cons {a : Char} {as l : GoStr} (h : hasPre (a :: as) l = true) :
    ∃ t, l = a :: t ∧ hasPre as t = true := by
  cases l with
  | nil => simp [hasPre] at h
  | cons b bs =>
    simp only [hasPre, Bool.and_eq_true, beq_iff_eq] at h
    exact ⟨bs, by rw [h.1], h.2⟩

/-- A string ending in `.yml` does not end in `.json`. -/
theorem hasSuf_yml_not_json {s : GoStr} (h : hasSuf dotYml s = true) :
    hasSuf dotJson s = false := by
  unfold hasSuf dotYml at h
  rw [show (['.', 'y', 'm', 'l'] : GoStr).reverse = ['l', 'm', 'y', '.'] from rfl] at h
  obtain ⟨t, hts, _⟩ := hasPre_cons h
  unfold hasSuf dotJson
  rw [show (['.', 'j', 's', 'o', 'n'] : GoStr).reverse = ['n', 'o', 's', 'j', '.'] from rfl,
    hts]
  simp [hasPre]

/-- A string ending in `.yaml` does not end in `.json`. -/
theorem hasSuf_yaml_not_json {s : GoStr} (h : hasSuf dotYaml s = true) :
    hasSuf dotJson s = false := by
  unfold hasSuf dotYaml at h
  rw [show (['.', 'y', 'a', 'm', 'l'] : GoStr).reverse = ['l', 'm', 'a', 'y', '.'] from rfl]
    at h
  obtain ⟨t, hts, _⟩ := hasPre_cons h
  unfold hasSuf dotJson
  rw [show (['.', 'j', 's', 'o', 'n'] : GoStr).reverse = ['n', 'o', 's', 'j', '.'] from rfl,
    hts]
  simp [hasPre]

/-- The `filepath.Ext` scanning loop, described through `takeWhile` and
`dropWhile` on the reversed path. -/
theorem extGoAux_eq (r : GoStr) : ∀ acc : GoStr,
    extGoAux acc r =
      if (r.dropWhile notDotSlash).head? = some '.' then
        '.' :: ((r.takeWhile notDotSlash).reverse ++ acc)
      else [] := by
  induction r with
  | nil => intro acc; simp [extGoAux]
  | cons c cs ih =>
    intro acc
    by_cases h1 : c = '/'
    · subst h1
      have hp : notDotSlash '/' = false := by decide
      simp [extGoAux, List.dropWhile_cons, hp]
    · by_cases h2 : c = '.'
      · subst h2
        have hp : notDotSlash '.' = false := by decide
        simp [extGoAux, List.dropWhile_cons, List.takeWhile_cons, hp]
      · have hp : notDotSlash c = true := by simp [notDotSlash, h1, h2]
        simp only [extGoAux, if_neg h1, if_neg h2, List.dropWhile_cons,
          List.takeWhile_cons, hp, if_pos rfl, ih]
        split <;> rename_i hh <;> simp [hh]

/-- `filepath.Ext` agrees with the spec-worded final-dot extension. -/
theorem extGo_eq_specExt (p : GoStr) : extGo p = specExt p := by
  unfold extGo specExt
  rw [extGoAux_eq]
  split <;> simp

/-- `TrimPrefix` of the one-character separator, in head-and-tail form. -/
theorem trimPre_slash (p : GoStr) :
    trimPre p ['/'] = if p.head? = some '/' then p.tail else p := by
  cases p with
  | nil => simp [trimPre, hasPre]
  | cons c cs =>
    simp only [trimPre, hasPre, Bool.and_true, List.head?_cons]
    by_cases h : c = '/'
    · subst h; simp
    · have : ('/' == c) = false := by simp [Ne.symm h]
      simp [this, h]

/-- Ending in the one-character suffix `c` is exactly having `c` as the
last character. -/
theorem hasSuf_single_iff (c : Char) (p : GoStr) :
    hasSuf [c] p = true ↔ p.getLast? = some c := by
  unfold hasSuf
  rw [List.reverse_singleton, ← List.head?_reverse]
  generalize p.reverse = r
  cases r with
  | nil => simp [hasPre]
  | cons b bs =>
    simp [hasPre]
    exact eq_comm

/-- `TrimSuffix` of the one-character separator, in `getLast?`-and-
`dropLast` form. -/
theorem trimSuf_slash (p : GoStr) :
    trimSuf p ['/'] = if p.getLast? = some '/' then p.dropLast else p := by
  unfold trimSuf
  by_cases h : p.getLast? = some '/'
  · rw [if_pos ((hasSuf_single_iff '/' p).mpr h), if_pos h, List.dropLast_eq_take]
    rfl
  · rw [if_neg h, if_neg (fun hb => h ((hasSuf_single_iff '/' p).mp hb))]

/-- Every run of the body of `parseConfig` aborts the process or returns a
nil error. -/
theorem parseConfigSwitch_cases (absPath : GoStr) (data : AccMap) (p : GoStr)
    (warn0 : Bool) (jR yR : List GoStr → Option AccEntries) :
    parseConfigSwitch absPath data p warn0 jR yR = .fatal ∨
    ∃ w d, parseConfigSwitch absPath data p warn0 jR yR = .returned none w d := by
  unfold parseConfigSwitch
  split
  · rcases hj : jR (deriveKeyPref absPath p) with _ | es
    · left; simp [hj]
    · right; exact ⟨warn0, upsertAll data es, by simp [hj]⟩
  · split
    · rcases hy : yR (deriveKeyPref absPath p) with _ | es
      · right; exact ⟨true, data, by simp [hy]⟩
      · right; exact ⟨warn0, upsertAll data es, by simp [hy]⟩
    · right; exact ⟨warn0, data, rfl⟩

/-- Every `parseConfig` call panics, aborts the process, or returns a nil
error. -/
theorem parseConfig_cases (nArgs : Nat) (absPath : GoStr) (data : AccMap)
    (p : GoStr) (f : Option GoFileInfo) (errIn openErr : Bool)
    (jR yR : List GoStr → Option AccEntries) :
    parseConfig nArgs absPath data p f errIn openErr jR yR = .panicked ∨
    parseConfig nArgs absPath data p f errIn openErr jR yR = .fatal ∨
    ∃ w d, parseConfig nArgs absPath data p f errIn openErr jR yR
      = .returned none w d := by
  rcases f with _ | fi
  · left; rfl
  · right
    simp only [parseConfig]
    split
    · exact parseConfigSwitch_cases absPath data p openErr jR yR
    · split
      · exact parseConfigSwitch_cases absPath data p errIn jR yR
      · right; exact ⟨false, data, rfl⟩

/-- The split the program computes never comes back empty. -/
theorem deriveRaw_ne_nil (absPath p : GoStr) : deriveRaw absPath p ≠ [] := by
  unfold deriveRaw
  intro h
  have := splitSep_length_pos '/'
    (trimPre (trimSuf (trimPre p absPath) (extGo p)) ['/'])
  rw [h] at this
  simp at this

/-! ## Claims -/

/-- C4, counterexample.  The claim says the extension is stripped only when
it matches `.json`, `.yml` or `.yaml`; the code strips `filepath.Ext path`
unconditionally.  On root `/data` and file `/data/app.txt` the code derives
`["app"]` while the claimed derivation keeps `["app.txt"]`. -/
theorem c4_counterexample :
    deriveKeyPref (("/data").toList) (("/data/app.txt").toList)
      = [("app").toList]
    ∧ deriveClaimC4 (("/data").toList) (("/data/app.txt").toList)
      = [("app.txt").toList]
    ∧ deriveKeyPref (("/data").toList) (("/data/app.txt").toList)
      ≠ deriveClaimC4 (("/data").toList) (("/data/app.txt").toList) := by
  refine ⟨by decide, by decide, by decide⟩

/-- C4, amended: the derived key segments are obtained by stripping the
root path, then stripping the file extension — the suffix that starts at
the final dot of the final path element — unconditionally, whether or not
it is one of the declared format suffixes, then stripping the leading
separator and splitting on the separator. -/
theorem c4_extension_always_stripped (absPath p : GoStr) :
    deriveKeyPref absPath p = deriveAmendedC4 absPath p := by
  unfold deriveKeyPref deriveRaw deriveAmendedC4
  rw [extGo_eq_specExt]

/-- C5, counterexample.  A file named `.json` inside a subdirectory derives
`["sub", ""]`: a sequence that contains an empty segment along with another
segment.  And on a path with a doubled separator the raw split is
`["", "x"]` — not a single empty segment — yet the code still collapses it
to the empty sequence, against the claim's "exactly when". -/
theorem c5_counterexample :
    deriveKeyPref (("/data").toList) (("/data/sub/.json").toList)
      = [("sub").toList, []]
    ∧ [] ∈ deriveKeyPref (("/data").toList) (("/data/sub/.json").toList)
    ∧ 2 ≤ (deriveKeyPref (("/data").toList) (("/data/sub/.json").toList)).length
    ∧ deriveRaw (("/data").toList) (("/data//x.json").toList)
      = [([] : GoStr), ("x").toList]
    ∧ deriveKeyPref (("/data").toList) (("/data//x.json").toList) = [] := by
  refine ⟨by decide, by decide, by decide, by decide, by decide⟩

/-- C5, amended: the derived sequence is replaced by the empty sequence
exactly when its first segment is the empty string (whatever follows); a
sequence whose first segment is non-empty is kept as-is and may still
contain empty segments at later positions. -/
theorem c5_collapse_iff_head_empty (absPath p : GoStr) :
    (deriveKeyPref absPath p = []
      ↔ (deriveRaw absPath p).head? = some ([] : GoStr))
    ∧ ∀ k ks, deriveRaw absPath p = k :: ks → k ≠ [] →
        deriveKeyPref absPath p = k :: ks := by
  constructor
  · unfold deriveKeyPref
    rcases hr : deriveRaw absPath p with _ | ⟨k, ks⟩
    · exact absurd hr (deriveRaw_ne_nil absPath p)
    · by_cases hk : k = [] <;> simp [hk]
  · intro k ks h hk
    unfold deriveKeyPref
    rw [h]
    simp [hk]

/-- C5, witness: a regular derivation that keeps its non-empty head. -/
theorem c5_witness :
    deriveKeyPref (("/data").toList) (("/data/a.json").toList)
      = [("a").toList] :=
  (c5_collapse_iff_head_empty (("/data").toList) (("/data/a.json").toList)).2
    (("a").toList) [] (by decide) (by decide)

/-- C6, counterexample.  `TrimPrefix`/`TrimSuffix` remove at most one
separator each, so `//a//` normalizes to `/a//`, not to the claimed `a/`;
and the separator-only prefix `///` normalizes to `//`, not to the empty
string. -/
theorem c6_counterexample :
    normPref (("//a//").toList) = ("/a//").toList
    ∧ normPrefClaimC6 (("//a//").toList) = ("a/").toList
    ∧ normPref (("//a//").toList) ≠ normPrefClaimC6 (("//a//").toList)
    ∧ normPref (("///").toList) = ("//").toList
    ∧ normPref (("///").toList) ≠ [] := by
  refine ⟨by decide, by decide, by decide, by decide, by decide⟩

/-- C6, amended: the normalization strips at most one leading and at most
one trailing separator character, then appends exactly one trailing
separator when the remainder is non-empty; only a prefix that is empty
after those two single strips normalizes to the empty string. -/
theorem c6_single_sep_stripped (p : GoStr) :
    normPref p = normPrefAmendedC6 p := by
  simp only [normPref, normPrefAmendedC6, trimPre_slash, trimSuf_slash]
  have haux : ∀ t : GoStr, (if t = [] then t else t ++ ['/'])
      = if t = [] then [] else t ++ ['/'] := by
    intro t
    by_cases h : t = [] <;> simp [h]
  exact haux _

/-- C8: key derivation is a total function of its inputs and the
`keyPrefix[0]` access is always in bounds, because splitting any string —
and in particular the trimmed remainder the program splits — yields at
least one element. -/
theorem c8_derivation_total (absPath p : GoStr) :
    0 < (deriveRaw absPath p).length
    ∧ ∀ s : GoStr, 0 < (splitSep '/' s).length := by
  refine ⟨?_, fun s => splitSep_length_pos '/' s⟩
  unfold deriveRaw
  exact splitSep_length_pos '/' _

/-- C3: during a directory walk (one argument, a regular file), a failed
JSON parse aborts the run through `Error.Fatalf`, while a failed YAML
transcode-or-parse only warns, drops that file's contribution (the
accumulation map is returned unchanged) and returns nil so traversal
continues. -/
theorem c3_json_fatal_yaml_warns (absPath : GoStr) (data : AccMap) (p : GoStr)
    (fi : GoFileInfo) (errIn openErr : Bool)
    (jR yR : List GoStr → Option AccEntries) :
    (hasSuf dotJson (goLower p) = true →
      jR (deriveKeyPref absPath p) = none →
      fi.isRegular = true →
      parseConfig 1 absPath data p (some fi) errIn openErr jR yR = .fatal)
    ∧ ((hasSuf dotYml (goLower p) = true ∨ hasSuf dotYaml (goLower p) = true) →
      yR (deriveKeyPref absPath p) = none →
      fi.isRegular = true →
      parseConfig 1 absPath data p (some fi) errIn openErr jR yR
        = .returned none true data) := by
  constructor
  · intro hj hjr hreg
    simp only [parseConfig]
    rw [if_pos (by simp [hreg])]
    unfold parseConfigSwitch
    rw [if_pos hj]
    simp [hjr]
  · intro hy hyr hreg
    have hnj : hasSuf dotJson (goLower p) = false := by
      rcases hy with h | h
      · exact hasSuf_yml_not_json h
      · exact hasSuf_yaml_not_json h
    simp only [parseConfig]
    rw [if_pos (by simp [hreg])]
    unfold parseConfigSwitch
    rw [if_neg (by simp [hnj])]
    rw [if_pos (by rcases hy with h | h <;> simp [h])]
    simp [hyr]

/-- C3, witness: a malformed `.json` file is fatal; a malformed `.yml` file
warns and leaves the map unchanged. -/
theorem c3_witness :
    parseConfig 1 (("/d").toList) [] (("/d/a.json").toList) (some ⟨true⟩)
      false false (fun _ => none) (fun _ => none) = .fatal
    ∧ parseConfig 1 (("/d").toList) [] (("/d/a.yml").toList) (some ⟨true⟩)
      false false (fun _ => some []) (fun _ => none) = .returned none true [] :=
  ⟨(c3_json_fatal_yaml_warns (("/d").toList) [] (("/d/a.json").toList) ⟨true⟩
      false false (fun _ => none) (fun _ => none)).1 (by decide) rfl rfl,
   (c3_json_fatal_yaml_warns (("/d").toList) [] (("/d/a.yml").toList) ⟨true⟩
      false false (fun _ => some []) (fun _ => none)).2
      (Or.inl (by decide)) rfl rfl⟩

/-- C7: for any traversed entry whose (lower-cased) path ends in none of
`.json`, `.yml`, `.yaml` — which covers `.properties`, `.ini` and every
unrecognized extension — `parseConfig` returns nil and the accumulation map
is unchanged, whatever the argument mode, file mode and oracle outcomes. -/
theorem c7_unsupported_format_noop (nArgs : Nat) (absPath : GoStr)
    (data : AccMap) (p : GoStr) (fi : GoFileInfo) (errIn openErr : Bool)
    (jR yR : List GoStr → Option AccEntries) :
    hasSuf dotJson (goLower p) = false →
    hasSuf dotYml (goLower p) = false →
    hasSuf dotYaml (goLower p) = false →
    ∃ w, parseConfig nArgs absPath data p (some fi) errIn openErr jR yR
      = .returned none w data := by
  intro h1 h2 h3
  simp only [parseConfig]
  split
  · refine ⟨openErr, ?_⟩
    unfold parseConfigSwitch
    rw [if_neg (by simp [h1]), if_neg (by simp [h2, h3])]
  · split
    · refine ⟨errIn, ?_⟩
      unfold parseConfigSwitch
      rw [if_neg (by simp [h1]), if_neg (by simp [h2, h3])]
    · exact ⟨false, rfl⟩

/-- C7, witness: a `.properties` file in walk mode contributes nothing and
returns no error. -/
theorem c7_witness :
    ∃ w, parseConfig 1 (("/d").toList) [] (("/d/a.properties").toList)
      (some ⟨true⟩) false false (fun _ => none) (fun _ => none)
      = .returned none w [] :=
  c7_unsupported_format_noop 1 (("/d").toList) [] (("/d/a.properties").toList)
    ⟨true⟩ false false (fun _ => none) (fun _ => none)
    (by decide) (by decide) (by decide)

/-- C9: every `parseConfig` call either panics, terminates the process via
the fatal path, or returns a nil error; consequently `filepath.Walk` never
receives a non-nil callback error and, unless the process dies first, the
walk always completes with a nil error. -/
theorem c9_callback_error_always_nil :
    (∀ nArgs absPath data p f errIn openErr jR yR,
      parseConfig nArgs absPath data p f errIn openErr jR yR = .panicked ∨
      parseConfig nArgs absPath data p f errIn openErr jR yR = .fatal ∨
      ∃ w d, parseConfig nArgs absPath data p f errIn openErr jR yR
        = .returned none w d)
    ∧ ∀ absPath data items,
      walkAll absPath data items = .panicked ∨
      walkAll absPath data items = .fatalExit ∨
      ∃ d, walkAll absPath data items = .done none d := by
  refine ⟨fun n a d p f e o jR yR => parseConfig_cases n a d p f e o jR yR, ?_⟩
  intro absPath data items
  induction items generalizing data with
  | nil => exact Or.inr (Or.inr ⟨data, rfl⟩)
  | cons it its ih =>
    rcases parseConfig_cases 1 absPath data it.path it.info it.errIn it.openErr
        it.jsonRes it.yamlRes with hc | hc | ⟨w, d, hc⟩
    · left
      simp [walkAll, hc]
    · right; left
      simp [walkAll, hc]
    · have hstep : walkAll absPath data (it :: its) = walkAll absPath d its := by
        simp [walkAll, hc]
      rw [hstep]
      exact ih d

/-- C10: `parseConfig` evaluates `f.Mode()` before looking at the argument
count, so it panics on a nil `FileInfo` in every mode (first conjunct) and
never panics otherwise (second conjunct, positively: it aborts fatally or
returns); and `main`'s stdin branch passes the unchecked `os.Stdin.Stat()`
result straight in, so a nil stat result makes the whole stdin-mode run
panic (third conjunct). -/
theorem c10_nil_fileinfo_panics :
    (∀ nArgs absPath data p errIn openErr jR yR,
      parseConfig nArgs absPath data p none errIn openErr jR yR = .panicked)
    ∧ (∀ nArgs absPath data p fi errIn openErr jR yR,
      parseConfig nArgs absPath data p (some fi) errIn openErr jR yR = .fatal ∨
      ∃ e w d, parseConfig nArgs absPath data p (some fi) errIn openErr jR yR
        = .returned e w d)
    ∧ ∀ sj sy, mainRun 0 (("json").toList) [] none sj sy false []
        = .panicked := by
  refine ⟨fun _ _ _ _ _ _ _ _ => rfl, ?_, ?_⟩
  · intro n a d p fi e o jR yR
    simp only [parseConfig]
    split
    · rcases parseConfigSwitch_cases a d p o jR yR with h | ⟨w, dd, h⟩
      · exact Or.inl h
      · exact Or.inr ⟨none, w, dd, h⟩
    · split
      · rcases parseConfigSwitch_cases a d p e jR yR with h | ⟨w, dd, h⟩
        · exact Or.inl h
        · exact Or.inr ⟨none, w, dd, h⟩
      · exact Or.inr ⟨none, false, d, rfl⟩
  · intro sj sy
    rfl

/-- C2, counterexample.  Reading from stdin without a valid `-format` is a
usage error, but the code exits with code 1 (line 76), not 255. -/
theorem c2_counterexample :
    mainRun 0 [] [] none (fun _ => none) (fun _ => none) false []
      = .usageExit 1
    ∧ (1 : Nat) ≠ 255 := by
  refine ⟨rfl, by decide⟩

/-- C2, amended: a wrong argument count exits with code 255 before any
parsing is attempted; stdin mode with a `-format` other than `json`/`yaml`
exits with code 1, also before any parsing; a one-argument run whose stat
succeeds and whose walk completes with a nil error reaches the end of
`main` and exits 0. -/
theorem c2_exit_codes :
    (∀ nArgs format absPath stdinStat sj sy statErr items, 2 ≤ nArgs →
      mainRun nArgs format absPath stdinStat sj sy statErr items
        = .usageExit 255)
    ∧ (∀ format absPath stdinStat sj sy statErr items,
      format ≠ ("json").toList → format ≠ ("yaml").toList →
      mainRun 0 format absPath stdinStat sj sy statErr items = .usageExit 1)
    ∧ (∀ format absPath stdinStat sj sy items d,
      walkAll absPath [] items = .done none d →
      mainRun 1 format absPath stdinStat sj sy false items = .ok d) := by
  refine ⟨?_, ?_, ?_⟩
  · intro n format a st sj sy se items hn
    unfold mainRun
    rw [if_neg (by simp; omega), if_neg (by simp; omega)]
  · intro format a st sj sy se items h1 h2
    unfold mainRun
    rw [if_pos (by simp), if_neg (by rintro (h | h) <;> simp_all)]
  · intro format a st sj sy items d hw
    unfold mainRun
    rw [if_neg (by simp), if_pos (by simp), if_neg (by simp), hw]

/-- C2, witness: the three exit paths at concrete invocations. -/
theorem c2_witness :
    mainRun 2 [] [] none (fun _ => none) (fun _ => none) false []
      = .usageExit 255
    ∧ mainRun 0 (("x").toList) [] none (fun _ => none) (fun _ => none) false []
      = .usageExit 1
    ∧ mainRun 1 [] (("/d").toList) none (fun _ => none) (fun _ => none)
      false [] = .ok [] :=
  ⟨c2_exit_codes.1 2 [] [] none (fun _ => none) (fun _ => none) false []
      (by decide),
   c2_exit_codes.2.1 (("x").toList) [] none (fun _ => none) (fun _ => none)
      false [] (by decide) (by decide),
   c2_exit_codes.2.2 [] (("/d").toList) none (fun _ => none) (fun _ => none)
      [] [] rfl⟩

/-- A two-entry accumulation map in one iteration order. -/
def dumpA : AccMap := [(("a").toList, ("1").toList), (("b").toList, ("2").toList)]

/-- The same two-entry accumulation map in the other iteration order. -/
def dumpB : AccMap := [(("b").toList, ("2").toList), (("a").toList, ("1").toList)]

/-- C1, counterexample.  `exportData` ranges over the Go map, whose
iteration order is unspecified: the same map contents presented in another
legal iteration order produce a dump that is not sorted by key and differs
from the first run's dump, so the output is neither sorted nor reproducible
across runs. -/
theorem c1_counterexample :
    List.Perm dumpA dumpB
    ∧ sortedByKey (exportData dumpB) = false
    ∧ exportData dumpA ≠ exportData dumpB := by
  refine ⟨by decide, by decide, by decide⟩

/-- C1, amended: the formatter produces exactly one export entry per flat
entry of the map, keyed by that entry's key, in the map's iteration order —
no sorting is applied, and since Go map iteration order is unspecified the
serialization order is not stable across runs. -/
theorem c1_one_entry_per_pair (data : AccMap) :
    (exportData data).length = data.length
    ∧ (exportData data).map KvExportEntry.key = data.map Prod.fst := by
  constructor
  · simp [exportData]
  · induction data with
    | nil => rfl
    | cons e es ih => simp [exportData, toExportEntry]
